import Mathlib

/-!
# VideoEnchancement: the frame pipeline of `src/main.cpp`

A shallow embedding of the `VideoEnhancer` class and of `main`.

* The program's state is passed explicitly: the `VideoEnhancer` object, and a
  `Sys` record holding what the process has printed, how often it has read the
  clock, and the calls it has made on its two streams.
* Everything the program obtains from outside (which paths open, what a video
  holds, what the clock shows) is a field of `World`.
* The OpenCV routines whose code is not part of the repository
  (`fastNlMeansDenoisingColored`, `cvtColor`, `split`, `merge`, CLAHE) are the
  fields of `Lib`; the theorems about `process` and `main` hold for every `Lib`.
  The gain/bias step (`convertTo`) is modelled from its description: round to
  the nearest integer, then clip to `0..255`, over exact arithmetic.
* A `double` is a rational number, an `int` an integer.  `frameCount` is counted
  in `Nat`: this is the C++ `int` for every stream shorter than `2^31` frames
  (an overflowing `frameCount++` has no defined behaviour in C++).
* The loop condition `cap >> frame` is taken to hold exactly when the read
  delivers a frame; the first read that fails ends the loop.
-/

namespace VideoEnchancement

/-! ## Frames and the vision library -/

/-- A `cv::Mat` of 8-bit channels: dimensions, channel count, and the channel
values in storage order. -/
structure Mat where
  rows : Nat
  cols : Nat
  channels : Nat
  data : List Nat
deriving DecidableEq, Repr

/-- A `cv::Size` (integer width and height). -/
structure Size where
  width : Int
  height : Int
deriving DecidableEq, Repr

/-- The two colour conversions `enhanceContrast` asks for. -/
inductive ColorConversionCodes where
  | COLOR_BGR2LAB
  | COLOR_LAB2BGR
deriving DecidableEq, Repr

/-- The OpenCV image routines called by `denoise` and `enhanceContrast`.
Their code is outside the repository, so they are parameters.
`fastNlMeansDenoisingColored src h hColor templateWindowSize searchWindowSize`,
`cvtColor src code`, `split m`, `merge planes`,
`clahe clipLimit tilesGridSize plane` (a CLAHE object configured with
`setClipLimit`, `setTilesGridSize` and then applied). -/
structure Lib where
  fastNlMeansDenoisingColored : Mat → Int → Int → Int → Int → Mat
  cvtColor : Mat → ColorConversionCodes → Mat
  split : Mat → List Mat
  merge : List Mat → Mat
  clahe : ℚ → Size → Mat → Mat

/-- Modelled from the spec: `cvRound` of OpenCV, whose code is not in the
repository: rounding to the nearest integer, a tie going to the even
neighbour. -/
def cvRound (x : ℚ) : Int :=
  let f := ⌊x⌋
  if x - f < 1 / 2 then f
  else if 1 / 2 < x - f then f + 1
  else if f % 2 = 0 then f else f + 1

/-- Modelled from the spec: `cv::saturate_cast<uchar>` of OpenCV, whose code is
not in the repository.  The value is rounded to the nearest integer and then
clipped to the valid 8-bit range `0..255`. -/
def saturate_cast_uchar (x : ℚ) : Nat :=
  let iv := cvRound x
  if 0 ≤ iv ∧ iv ≤ 255 then iv.toNat
  else if 0 < iv then 255
  else 0

/-- Modelled from the spec: the gain/bias step on one 8-bit channel value,
`output = input*alpha + beta` clipped to the valid 8-bit range.  This is what
`cv::Mat::convertTo(dst, -1, alpha, beta)` of OpenCV, whose code is not in the
repository, does to every channel of an 8-bit image. -/
def gainBias (alpha beta : ℚ) (v : Nat) : Nat :=
  saturate_cast_uchar ((v : ℚ) * alpha + beta)

/-- Modelled from the spec: `m.convertTo(dst, -1, alpha, beta)` of OpenCV: the
result has the type and shape of `m`, every channel value remapped by
`gainBias`. -/
def Mat.convertTo (m : Mat) (alpha beta : ℚ) : Mat :=
  { m with data := m.data.map (gainBias alpha beta) }

/-! ## Streams, the outside world and the process state -/

/-- What an input path holds, as the capture sees it: frame width and height in
pixels, frame rate, and the outcome of each successive read (`some f`: the read
delivers frame `f`; `none`: the read fails).  Once the list is used up every
read fails. -/
structure VideoFile where
  width : Nat
  height : Nat
  fps : ℚ
  frames : List (Option Mat)

/-- Everything the program obtains from outside.
`videoFiles path`: what `cap.open(path)` finds (`none`: cannot be opened).
`canCreate path fourcc fps frameSize isColor`: whether `writer.open` succeeds.
`clock n`: the reading of `high_resolution_clock` at the `n`-th call of `now()`,
in ticks; `ticksPerSecond`: the clock's resolution. -/
structure World where
  videoFiles : String → Option VideoFile
  canCreate : String → Nat → ℚ → Size → Bool → Bool
  clock : Nat → Int
  ticksPerSecond : Int

/-- A call made on one of the two streams. -/
inductive Call where
  | capOpen (path : String)
  | capRead
  | capRelease
  | writerOpen (path : String)
  | writerWrite
  | writerRelease
deriving DecidableEq, Repr

/-- The state of the process outside the `VideoEnhancer` object: the lines
written to `std::cout` and to `std::cerr` (each ended by `std::endl`), the
number of clock readings taken so far, and the stream calls made so far. -/
structure Sys where
  cout : List String := []
  cerr : List String := []
  clockReads : Nat := 0
  calls : List Call := []
deriving DecidableEq, Repr

/-- Reading `std::chrono::high_resolution_clock::now()`. -/
def Sys.now (w : World) (sys : Sys) : Int × Sys :=
  (w.clock sys.clockReads, { sys with clockReads := sys.clockReads + 1 })

/-- The count of `std::chrono::duration_cast<std::chrono::seconds>(t - start)`:
whole seconds, truncated toward zero. -/
def elapsedSeconds (w : World) (start t : Int) : Int :=
  (t - start).tdiv w.ticksPerSecond

/-- The properties `initialize` queries. -/
inductive VideoCaptureProperties where
  | CAP_PROP_FRAME_WIDTH
  | CAP_PROP_FRAME_HEIGHT
  | CAP_PROP_FPS
deriving DecidableEq, Repr

/-- A `cv::VideoCapture`: closed when default-constructed. -/
structure VideoCapture where
  opened : Bool := false
  width : Nat := 0
  height : Nat := 0
  fps : ℚ := 0
  pending : List (Option Mat) := []

/-- A `cv::VideoWriter`: closed when default-constructed.  `written` are the
frames appended to the output so far. -/
structure VideoWriter where
  opened : Bool := false
  filename : String := ""
  fourcc : Nat := 0
  fps : ℚ := 0
  frameSize : Size := ⟨0, 0⟩
  isColor : Bool := true
  written : List Mat := []

/-- `cap.open(path)`. -/
def VideoCapture.open (w : World) (sys : Sys) (path : String) : VideoCapture × Sys :=
  let sys := { sys with calls := sys.calls ++ [Call.capOpen path] }
  match w.videoFiles path with
  | some f =>
    ({ opened := true, width := f.width, height := f.height, fps := f.fps,
       pending := f.frames }, sys)
  | none => ({}, sys)

/-- `cap.isOpened()`. -/
def VideoCapture.isOpened (c : VideoCapture) : Bool := c.opened

/-- `cap.get(prop)`: every property is reported as a `double`. -/
def VideoCapture.get (c : VideoCapture) : VideoCaptureProperties → ℚ
  | .CAP_PROP_FRAME_WIDTH => (c.width : ℚ)
  | .CAP_PROP_FRAME_HEIGHT => (c.height : ℚ)
  | .CAP_PROP_FPS => c.fps

/-- `cap >> frame` used as the loop condition, which holds exactly when the
read delivers a frame: the frame read, or `none` when the read fails (closed
capture, failing read, or end of stream). -/
def VideoCapture.read (c : VideoCapture) (sys : Sys) : Option Mat × VideoCapture × Sys :=
  let sys := { sys with calls := sys.calls ++ [Call.capRead] }
  if c.opened then
    match c.pending with
    | some frame :: rest => (some frame, { c with pending := rest }, sys)
    | none :: rest => (none, { c with pending := rest }, sys)
    | [] => (none, c, sys)
  else (none, c, sys)

/-- `cap.release()`. -/
def VideoCapture.release (c : VideoCapture) (sys : Sys) : VideoCapture × Sys :=
  ({ c with opened := false }, { sys with calls := sys.calls ++ [Call.capRelease] })

/-- `cv::VideoWriter::fourcc(c1, c2, c3, c4)`. -/
def fourcc (c1 c2 c3 c4 : Char) : Nat :=
  (c1.toNat % 256) + (c2.toNat % 256) * 2 ^ 8 + (c3.toNat % 256) * 2 ^ 16
    + (c4.toNat % 256) * 2 ^ 24

/-- `writer.open(filename, fourcc, fps, frameSize, isColor)`. -/
def VideoWriter.open (w : World) (sys : Sys) (filename : String) (fourcc : Nat) (fps : ℚ)
    (frameSize : Size) (isColor : Bool) : VideoWriter × Sys :=
  let sys := { sys with calls := sys.calls ++ [Call.writerOpen filename] }
  if w.canCreate filename fourcc fps frameSize isColor then
    ({ opened := true, filename := filename, fourcc := fourcc, fps := fps,
       frameSize := frameSize, isColor := isColor, written := [] }, sys)
  else ({}, sys)

/-- `writer.isOpened()`. -/
def VideoWriter.isOpened (wr : VideoWriter) : Bool := wr.opened

/-- `writer.write(frame)`: appends the frame; a closed writer ignores it. -/
def VideoWriter.write (wr : VideoWriter) (sys : Sys) (frame : Mat) : VideoWriter × Sys :=
  let sys := { sys with calls := sys.calls ++ [Call.writerWrite] }
  if wr.opened then ({ wr with written := wr.written ++ [frame] }, sys) else (wr, sys)

/-- `writer.release()`. -/
def VideoWriter.release (wr : VideoWriter) (sys : Sys) : VideoWriter × Sys :=
  ({ wr with opened := false }, { sys with calls := sys.calls ++ [Call.writerRelease] })

/-- The C++ conversion of a `double` to `int`: truncation toward zero. -/
def doubleToInt (x : ℚ) : Int := x.num.tdiv x.den

/-! ## The `VideoEnhancer` class -/

/-- The data members of `VideoEnhancer`, with their default initialisers. -/
structure VideoEnhancer where
  cap : VideoCapture := {}
  writer : VideoWriter := {}
  frameSize : Size := ⟨0, 0⟩
  fps : ℚ := 0
  h : Int := 10
  templateWindowSize : Int := 7
  searchWindowSize : Int := 21
  alpha : ℚ := 1.2
  beta : Int := 10

/-- `VideoEnhancer::initialize(input, output)`. -/
def VideoEnhancer.initialize (w : World) (e : VideoEnhancer) (sys : Sys)
    (input output : String) : Bool × VideoEnhancer × Sys :=
  let (cap, sys) := VideoCapture.open w sys input
  let e := { e with cap := cap }
  if !e.cap.isOpened then
    (false, e, { sys with cerr := sys.cerr ++ ["Cannot open input: " ++ input] })
  else
    let e := { e with
      frameSize := ⟨doubleToInt (e.cap.get .CAP_PROP_FRAME_WIDTH),
                    doubleToInt (e.cap.get .CAP_PROP_FRAME_HEIGHT)⟩ }
    let e := { e with fps := e.cap.get .CAP_PROP_FPS }
    let (writer, sys) :=
      VideoWriter.open w sys output (fourcc 'X' 'V' 'I' 'D') e.fps e.frameSize true
    let e := { e with writer := writer }
    if !e.writer.isOpened then
      (false, e, { sys with cerr := sys.cerr ++ ["Cannot open output: " ++ output] })
    else
      (true, e, sys)

/-- `VideoEnhancer::denoise(frame)`. -/
def VideoEnhancer.denoise (lib : Lib) (e : VideoEnhancer) (frame : Mat) : Mat :=
  lib.fastNlMeansDenoisingColored frame e.h e.h e.templateWindowSize e.searchWindowSize

/-- `VideoEnhancer::enhanceContrast(frame)`. -/
def VideoEnhancer.enhanceContrast (lib : Lib) (e : VideoEnhancer) (frame : Mat) : Mat :=
  let lab := lib.cvtColor frame .COLOR_BGR2LAB
  let planes := lib.split lab
  let planes := planes.modifyHead (lib.clahe 2.0 ⟨8, 8⟩)
  let lab := lib.merge planes
  let enhanced := lib.cvtColor lab .COLOR_LAB2BGR
  enhanced.convertTo e.alpha (e.beta : ℚ)

/-- The progress line printed after every hundredth frame. -/
def progressLine (frameCount : Nat) (elapsed : Int) : String :=
  "Processed " ++ toString frameCount ++ " frames in " ++ toString elapsed ++ "s"

/-- The summary line printed after the loop. -/
def summaryLine (frameCount : Nat) (total : Int) : String :=
  "Completed " ++ toString frameCount ++ " frames in " ++ toString total ++ " seconds"

/-- The body of the `while` loop of `process`, run on the frame just read. -/
def VideoEnhancer.loopBody (lib : Lib) (w : World) (start : Int) (frame : Mat)
    (e : VideoEnhancer) (sys : Sys) (frameCount : Nat) : VideoEnhancer × Sys × Nat :=
  let denoised := e.denoise lib frame
  let enhanced := e.enhanceContrast lib denoised
  let (writer, sys) := e.writer.write sys enhanced
  let e := { e with writer := writer }
  let frameCount := frameCount + 1
  if frameCount % 100 = 0 then
    let (now, sys) := sys.now w
    let elapsed := elapsedSeconds w start now
    (e, { sys with cout := sys.cout ++ [progressLine frameCount elapsed] }, frameCount)
  else
    (e, sys, frameCount)

/-- The `while (cap >> frame)` loop of `process`.  `fuel` bounds the number of
read attempts; `process` supplies one more than the number of pending reads,
which the loop never exhausts (`processLoop_fuel`). -/
def VideoEnhancer.processLoop (lib : Lib) (w : World) (start : Int) :
    Nat → VideoEnhancer → Sys → Nat → VideoEnhancer × Sys × Nat
  | 0, e, sys, frameCount => (e, sys, frameCount)
  | fuel + 1, e, sys, frameCount =>
    match e.cap.read sys with
    | (none, cap, sys) => ({ e with cap := cap }, sys, frameCount)
    | (some frame, cap, sys) =>
      let (e, sys, frameCount) :=
        VideoEnhancer.loopBody lib w start frame { e with cap := cap } sys frameCount
      VideoEnhancer.processLoop lib w start fuel e sys frameCount

/-- `VideoEnhancer::process()`. -/
def VideoEnhancer.process (lib : Lib) (w : World) (e : VideoEnhancer) (sys : Sys) :
    VideoEnhancer × Sys :=
  let (start, sys) := sys.now w
  let (e, sys, frameCount) :=
    VideoEnhancer.processLoop lib w start (e.cap.pending.length + 1) e sys 0
  let (stop, sys) := sys.now w
  let total := elapsedSeconds w start stop
  (e, { sys with cout := sys.cout ++ [summaryLine frameCount total] })

/-- `VideoEnhancer::setParams(h_val, alpha_val, beta_val)`. -/
def VideoEnhancer.setParams (e : VideoEnhancer) (h_val : Int) (alpha_val : ℚ)
    (beta_val : Int) : VideoEnhancer :=
  { e with h := h_val, alpha := alpha_val, beta := beta_val }

/-- The destructor `VideoEnhancer::~VideoEnhancer()`. -/
def VideoEnhancer.destroy (e : VideoEnhancer) (sys : Sys) : VideoEnhancer × Sys :=
  let (cap, sys) := if e.cap.isOpened then e.cap.release sys else (e.cap, sys)
  let (writer, sys) := if e.writer.isOpened then e.writer.release sys else (e.writer, sys)
  ({ e with cap := cap, writer := writer }, sys)

/-! ## `main` -/

/-- The input and output paths `main` settles on (the first five lines of
`main`).  `argv` is the whole argument vector, `argv[0]` included, so `argc` is
its length. -/
def parseArgs (argv : List String) : String × String :=
  let argc := argv.length
  let input := "input.mp4"
  let output := "output.avi"
  let input := if argc ≥ 2 then argv.getD 1 input else input
  let output := if argc ≥ 3 then argv.getD 2 output else output
  (input, output)

/-- The program: `main(argc, argv)` started with nothing printed yet.  The
result is the value `main` returns, the `VideoEnhancer` as its destructor leaves
it, and the final process state. -/
def main (lib : Lib) (w : World) (argv : List String) : Int × VideoEnhancer × Sys :=
  let (input, output) := parseArgs argv
  let enhancer : VideoEnhancer := {}
  let sys : Sys := {}
  let (ok, enhancer, sys) := VideoEnhancer.initialize w enhancer sys input output
  if !ok then
    let (enhancer, sys) := enhancer.destroy sys
    (-1, enhancer, sys)
  else
    let enhancer := enhancer.setParams 10 1.2 10
    let (enhancer, sys) := VideoEnhancer.process lib w enhancer sys
    let (enhancer, sys) := enhancer.destroy sys
    (0, enhancer, sys)


/-! ## A concrete session

A stand-in for the vision library, a 2x2 three-channel frame, a three-frame
input at 30 frames per second, and an enhancer with both streams open: the
inputs at which the theorems below are instantiated. -/

/-- A stand-in library: every routine returns its image unchanged. -/
def exampleLib : Lib where
  fastNlMeansDenoisingColored := fun src _ _ _ _ => src
  cvtColor := fun src _ => src
  split := fun m => [m]
  merge := fun planes => planes.headD ⟨0, 0, 0, []⟩
  clahe := fun _ _ plane => plane

/-- A 2x2 frame of three channels, every channel value `v`. -/
def exampleFrame (v : Nat) : Mat := ⟨2, 2, 3, List.replicate 12 v⟩

/-- The three-frame, 2x2, 30 fps input of the end-to-end scenario. -/
def exampleVideo : VideoFile where
  width := 2
  height := 2
  fps := 30
  frames := [some (exampleFrame 0), some (exampleFrame 100), some (exampleFrame 250)]

/-- A world in which only `input.mp4` can be read and only `output.avi` can be
written, with a nanosecond clock that advances one second per reading. -/
def exampleWorld : World where
  videoFiles := fun path => if path = "input.mp4" then some exampleVideo else none
  canCreate := fun path _ _ _ _ => decide (path = "output.avi")
  clock := fun n => 1000000000 * (n : Int)
  ticksPerSecond := 1000000000

/-- An enhancer as `initialize` leaves it on `exampleWorld`. -/
def exampleEnhancer : VideoEnhancer where
  cap := { opened := true, width := 2, height := 2, fps := 30, pending := exampleVideo.frames }
  writer := { opened := true, filename := "output.avi", fourcc := fourcc 'X' 'V' 'I' 'D',
              fps := 30, frameSize := ⟨2, 2⟩, isColor := true, written := [] }
  frameSize := ⟨2, 2⟩
  fps := 30

/-! ## Rounding and clipping -/

theorem cvRound_floor_le (x : ℚ) : ⌊x⌋ ≤ cvRound x := by
  unfold cvRound
  simp only
  split_ifs <;> omega

theorem cvRound_le_floor_succ (x : ℚ) : cvRound x ≤ ⌊x⌋ + 1 := by
  unfold cvRound
  simp only
  split_ifs <;> omega

theorem cvRound_sub_le (x : ℚ) : |(cvRound x : ℚ) - x| ≤ 1 / 2 := by
  have h1 : (⌊x⌋ : ℚ) ≤ x := Int.floor_le x
  have h2 : x < ⌊x⌋ + 1 := Int.lt_floor_add_one x
  unfold cvRound
  simp only
  rw [abs_le]
  split_ifs with ha hb hc
  · constructor <;> linarith
  · push_cast; constructor <;> linarith
  · constructor <;> linarith
  · push_cast
    push_neg at ha hb
    constructor <;> linarith

theorem cvRound_eq_of_abs_lt (x : ℚ) (n : Int) (h : |x - n| < 1 / 2) : cvRound x = n := by
  rw [abs_lt] at h
  obtain ⟨h1, h2⟩ := h
  unfold cvRound
  simp only
  by_cases hx : (n : ℚ) ≤ x
  · have hf : ⌊x⌋ = n := by
      rw [Int.floor_eq_iff]
      constructor <;> linarith
    rw [hf, if_pos (by linarith)]
  · push_neg at hx
    have hf : ⌊x⌋ = n - 1 := by
      rw [Int.floor_eq_iff]
      push_cast
      constructor <;> linarith
    rw [hf]
    push_cast
    rw [if_neg (by linarith), if_pos (by linarith)]
    ring

theorem cvRound_nonpos (x : ℚ) (h : x < 0) : cvRound x ≤ 0 := by
  have h1 : ⌊x⌋ < 0 := Int.floor_lt.mpr (by simpa using h)
  have := cvRound_le_floor_succ x
  omega

theorem cvRound_nonneg (x : ℚ) (h : 0 ≤ x) : 0 ≤ cvRound x := by
  have h1 : 0 ≤ ⌊x⌋ := Int.floor_nonneg.mpr h
  have := cvRound_floor_le x
  omega

theorem cvRound_ge_255 (x : ℚ) (h : 255 < x) : 255 ≤ cvRound x := by
  have h1 : (255 : Int) ≤ ⌊x⌋ := Int.le_floor.mpr (by push_cast; linarith)
  have := cvRound_floor_le x
  omega

theorem cvRound_le_255 (x : ℚ) (h : x ≤ 255) : cvRound x ≤ 255 := by
  rcases lt_or_eq_of_le h with h | h
  · have h1 : ⌊x⌋ < 255 := Int.floor_lt.mpr (by push_cast; linarith)
    have := cvRound_le_floor_succ x
    omega
  · rw [cvRound_eq_of_abs_lt x 255 (by rw [h]; norm_num)]


theorem saturate_cast_uchar_of_range (x : ℚ) (h0 : 0 ≤ x) (h1 : x ≤ 255) :
    (saturate_cast_uchar x : Int) = cvRound x := by
  have a := cvRound_nonneg x h0
  have b := cvRound_le_255 x h1
  unfold saturate_cast_uchar
  simp only
  rw [if_pos ⟨a, b⟩]
  exact Int.toNat_of_nonneg a

theorem saturate_cast_uchar_of_gt (x : ℚ) (h : 255 < x) : saturate_cast_uchar x = 255 := by
  have a := cvRound_ge_255 x h
  unfold saturate_cast_uchar
  simp only
  split_ifs with h1 h2
  · have : cvRound x = 255 := by omega
    rw [this]; rfl
  · rfl
  · omega

theorem saturate_cast_uchar_of_neg (x : ℚ) (h : x < 0) : saturate_cast_uchar x = 0 := by
  have a := cvRound_nonpos x h
  unfold saturate_cast_uchar
  simp only
  split_ifs with h1 h2
  · have : cvRound x = 0 := by omega
    rw [this]; rfl
  · omega
  · rfl

theorem saturate_cast_uchar_le (x : ℚ) : saturate_cast_uchar x ≤ 255 := by
  unfold saturate_cast_uchar
  simp only
  split_ifs with h1 h2
  · omega
  · exact le_refl _
  · omega

/-- With gain `1.2` and bias `10` the gain/bias step is
`v ↦ min 255 ⌊(12 v + 105) / 10⌋`. -/
theorem gainBias_default_eq (v : Nat) :
    gainBias 1.2 10 v = min 255 ((12 * v + 105) / 10) := by
  have hr : cvRound ((v : ℚ) * 1.2 + 10) = (((12 * v + 105) / 10 : Nat) : Int) := by
    apply cvRound_eq_of_abs_lt
    have h1 : 10 * ((12 * v + 105) / 10) + 1 ≤ 12 * v + 105 := by omega
    have h2 : 12 * v + 105 ≤ 10 * ((12 * v + 105) / 10) + 9 := by omega
    generalize (12 * v + 105) / 10 = n at h1 h2
    have h1q : (10 : ℚ) * (n : ℚ) + 1 ≤ 12 * (v : ℚ) + 105 := by exact_mod_cast h1
    have h2q : 12 * (v : ℚ) + 105 ≤ (10 : ℚ) * (n : ℚ) + 9 := by exact_mod_cast h2
    rw [abs_lt]
    push_cast
    constructor <;> norm_num <;> linarith
  unfold gainBias saturate_cast_uchar
  simp only
  rw [hr]
  split_ifs with h1 h2
  · simp only [Int.toNat_ofNat]
    omega
  · omega
  · omega

/-! ## The gain/bias step -/

/-- C7: in the final gain/bias step of `enhanceContrast` every channel value `v`
becomes `gainBias alpha beta v`, and for every gain `alpha`, bias `beta` and
value `v`: when `v*alpha+beta > 255` the result is 255, when `v*alpha+beta < 0`
the result is 0, and otherwise it is `v*alpha+beta` rounded to the nearest
integer (at most one half away from it).  With the default gain 1.2 and bias 10
the value `v*alpha+beta` is never negative and the result never 0, while with
the negative bias -10 the value 0 is clipped from below. -/
theorem enhanceContrast_gainBias_clips (alpha : ℚ) (beta : Int) (v : Nat) :
    (∀ (lib : Lib) (e : VideoEnhancer) (frame : Mat),
      (e.enhanceContrast lib frame).data =
        (lib.cvtColor (lib.merge ((lib.split (lib.cvtColor frame .COLOR_BGR2LAB)).modifyHead
          (lib.clahe 2.0 ⟨8, 8⟩))) .COLOR_LAB2BGR).data.map (gainBias e.alpha (e.beta : ℚ))) ∧
    (255 < (v : ℚ) * alpha + beta → gainBias alpha beta v = 255) ∧
    ((v : ℚ) * alpha + beta < 0 → gainBias alpha beta v = 0) ∧
    (0 ≤ (v : ℚ) * alpha + beta → (v : ℚ) * alpha + beta ≤ 255 →
      (gainBias alpha beta v : Int) = cvRound ((v : ℚ) * alpha + beta) ∧
      |(gainBias alpha beta v : ℚ) - ((v : ℚ) * alpha + beta)| ≤ 1 / 2) ∧
    (∀ u : Nat,
      0 ≤ (u : ℚ) * ({} : VideoEnhancer).alpha + (({} : VideoEnhancer).beta : ℚ) ∧
      0 < gainBias ({} : VideoEnhancer).alpha (({} : VideoEnhancer).beta : ℚ) u) ∧
    (∃ (b : Int) (u : Nat), b < 0 ∧ u ≤ 255 ∧ (u : ℚ) * 1.2 + b < 0 ∧
      gainBias 1.2 b u = 0) := by
  refine ⟨fun lib e frame => rfl, saturate_cast_uchar_of_gt _, saturate_cast_uchar_of_neg _,
    fun h0 h1 => ?_, fun u => ?_, ⟨-10, 0, by decide, by decide, by norm_num, ?_⟩⟩
  · have hr := saturate_cast_uchar_of_range _ h0 h1
    refine ⟨hr, ?_⟩
    have hq : ((gainBias alpha beta v : Nat) : ℚ) = ((cvRound ((v : ℚ) * alpha + beta) : Int) : ℚ) := by
      unfold gainBias
      exact_mod_cast hr
    rw [hq]
    exact cvRound_sub_le _
  · have hd : gainBias ({} : VideoEnhancer).alpha (({} : VideoEnhancer).beta : ℚ) u
        = min 255 ((12 * u + 105) / 10) := by
      rw [← gainBias_default_eq u]
      norm_num
    rw [hd]
    constructor
    · show 0 ≤ (u : ℚ) * 1.2 + ((10 : Int) : ℚ)
      have : (0 : ℚ) ≤ u := Nat.cast_nonneg u
      norm_num
      linarith
    · omega
  · exact saturate_cast_uchar_of_neg _ (by norm_num)

/-- C10: with the default gain 1.2 and bias 10 (the values `main` passes to
`setParams`), the gain/bias step maps every `v` in `0..254` to a strictly larger
value, maps every `v ≥ 204` to 255, has 255 as its only fixed point among the
8-bit values, and applying it twice gives the same as applying it once exactly
for the values `v ≥ 204`. -/
theorem gainBias_default_fixed_point :
    (({} : VideoEnhancer).alpha = 1.2 ∧ ({} : VideoEnhancer).beta = 10) ∧
    (∀ e : VideoEnhancer,
      (e.setParams 10 1.2 10).alpha = 1.2 ∧ (e.setParams 10 1.2 10).beta = 10) ∧
    (∀ v : Nat, v ≤ 254 → v < gainBias 1.2 10 v) ∧
    (∀ v : Nat, 204 ≤ v → gainBias 1.2 10 v = 255) ∧
    (∀ v : Nat, v ≤ 255 → (gainBias 1.2 10 v = v ↔ v = 255)) ∧
    (∀ v : Nat, v ≤ 255 →
      (gainBias 1.2 10 (gainBias 1.2 10 v) = gainBias 1.2 10 v ↔ 204 ≤ v)) := by
  refine ⟨⟨rfl, rfl⟩, fun e => ⟨rfl, rfl⟩, fun v hv => ?_, fun v hv => ?_, fun v hv => ?_,
    fun v hv => ?_⟩
  · rw [gainBias_default_eq]; omega
  · rw [gainBias_default_eq]; omega
  · rw [gainBias_default_eq]; omega
  · rw [gainBias_default_eq, gainBias_default_eq]; omega


/-! ## The processing loop -/

/-- One pass through the loop when the next read delivers a frame. -/
theorem processLoop_read (lib : Lib) (w : World) (start : Int) (fuel : Nat)
    (e : VideoEnhancer) (sys : Sys) (n : Nat) (f : Mat) (tl : List (Option Mat))
    (ho : e.cap.opened = true) (hp : e.cap.pending = some f :: tl) :
    VideoEnhancer.processLoop lib w start (fuel + 1) e sys n =
      VideoEnhancer.processLoop lib w start fuel
        (VideoEnhancer.loopBody lib w start f { e with cap := { e.cap with pending := tl } }
          { sys with calls := sys.calls ++ [Call.capRead] } n).1
        (VideoEnhancer.loopBody lib w start f { e with cap := { e.cap with pending := tl } }
          { sys with calls := sys.calls ++ [Call.capRead] } n).2.1
        (VideoEnhancer.loopBody lib w start f { e with cap := { e.cap with pending := tl } }
          { sys with calls := sys.calls ++ [Call.capRead] } n).2.2 := by
  simp [VideoEnhancer.processLoop, VideoCapture.read, ho, hp]

/-- The loop ends at the first read that delivers no frame. -/
theorem processLoop_stop (lib : Lib) (w : World) (start : Int) (fuel : Nat)
    (e : VideoEnhancer) (sys : Sys) (n : Nat)
    (hp : ∀ f tl, e.cap.pending ≠ some f :: tl) :
    (VideoEnhancer.processLoop lib w start (fuel + 1) e sys n).1.writer = e.writer ∧
    (VideoEnhancer.processLoop lib w start (fuel + 1) e sys n).2.1.cout = sys.cout ∧
    (VideoEnhancer.processLoop lib w start (fuel + 1) e sys n).2.1.clockReads = sys.clockReads ∧
    (VideoEnhancer.processLoop lib w start (fuel + 1) e sys n).2.2 = n := by
  unfold VideoEnhancer.processLoop VideoCapture.read
  by_cases ho : e.cap.opened = true
  · rcases hpe : e.cap.pending with _ | ⟨a, tl⟩
    · simp [ho, hpe]
    · cases a with
      | none => simp [ho, hpe]
      | some f => exact absurd hpe (hp f tl)
  · simp [ho]


/-- What one pass of the loop body does to the enhancer: the finished frame is
handed to the writer, nothing else changes. -/
theorem loopBody_enhancer (lib : Lib) (w : World) (start : Int) (f : Mat)
    (e : VideoEnhancer) (sys : Sys) (n : Nat) :
    (VideoEnhancer.loopBody lib w start f e sys n).1 =
      { e with writer := (e.writer.write sys (e.enhanceContrast lib (e.denoise lib f))).1 } := by
  unfold VideoEnhancer.loopBody
  simp only
  split_ifs <;> rfl

/-- One pass of the loop body counts one frame. -/
theorem loopBody_count (lib : Lib) (w : World) (start : Int) (f : Mat)
    (e : VideoEnhancer) (sys : Sys) (n : Nat) :
    (VideoEnhancer.loopBody lib w start f e sys n).2.2 = n + 1 := by
  unfold VideoEnhancer.loopBody
  simp only
  split_ifs <;> rfl

/-- One pass of the loop body prints a progress line exactly when the new frame
count is a multiple of 100, and reads the clock exactly then. -/
theorem loopBody_cout (lib : Lib) (w : World) (start : Int) (f : Mat)
    (e : VideoEnhancer) (sys : Sys) (n : Nat) :
    (VideoEnhancer.loopBody lib w start f e sys n).2.1.cout =
      sys.cout ++ (if (n + 1) % 100 = 0
        then [progressLine (n + 1) (elapsedSeconds w start (w.clock sys.clockReads))]
        else []) ∧
    (VideoEnhancer.loopBody lib w start f e sys n).2.1.clockReads =
      sys.clockReads + (if (n + 1) % 100 = 0 then 1 else 0) := by
  unfold VideoEnhancer.loopBody VideoWriter.write Sys.now
  simp only
  split_ifs <;> simp

/-- The frames the loop appends to an open writer: one finished frame per frame
read, in reading order. -/
theorem processLoop_written (lib : Lib) (w : World) (start : Int) (rest : List (Option Mat))
    (hrest : ∀ f tl, rest ≠ some f :: tl) (fs : List Mat) :
    ∀ (fuel : Nat) (e : VideoEnhancer) (sys : Sys) (n : Nat),
      fs.length < fuel → e.cap.opened = true → e.writer.opened = true →
      e.cap.pending = fs.map some ++ rest →
      (VideoEnhancer.processLoop lib w start fuel e sys n).1.writer.written =
        e.writer.written ++ fs.map (fun f => e.enhanceContrast lib (e.denoise lib f)) := by
  induction fs with
  | nil =>
    intro fuel e sys n hfuel _ _ hp
    obtain ⟨k, rfl⟩ : ∃ k, fuel = k + 1 := ⟨fuel - 1, by simp at hfuel; omega⟩
    have hstop := processLoop_stop lib w start k e sys n (by
      intro f tl h
      rw [hp] at h
      exact hrest f tl (by simpa using h))
    rw [hstop.1]
    simp
  | cons f fs ih =>
    intro fuel e sys n hfuel ho hw hp
    obtain ⟨k, rfl⟩ : ∃ k, fuel = k + 1 := ⟨fuel - 1, by simp at hfuel; omega⟩
    rw [processLoop_read lib w start k e sys n f (fs.map some ++ rest) ho (by simpa using hp)]
    rw [ih]
    · rw [loopBody_enhancer]
      simp [VideoWriter.write, hw, VideoEnhancer.denoise, VideoEnhancer.enhanceContrast]
    · simp at hfuel; omega
    · rw [loopBody_enhancer]; exact ho
    · rw [loopBody_enhancer]; simp [VideoWriter.write, hw]
    · rw [loopBody_enhancer]


/-- The multiples of 100 among `1..F` are `100, 200, ..., 100 * (F / 100)`. -/
theorem multiples_of_100 (F : Nat) :
    (List.range' 1 F).filter (fun m => m % 100 = 0) =
      (List.range (F / 100)).map (fun k => 100 * (k + 1)) := by
  induction F with
  | zero => simp
  | succ F ih =>
    rw [List.range'_concat, List.filter_append, ih, Nat.one_mul]
    by_cases h : (1 + F) % 100 = 0
    · have hd : (F + 1) / 100 = F / 100 + 1 := by omega
      have hv : 1 + F = 100 * (F / 100 + 1) := by omega
      rw [hd, List.range_succ, List.map_append]
      simp [h, hv]
    · have hd : (F + 1) / 100 = F / 100 := by omega
      rw [hd]
      simp [h]

/-- The progress lines of the loop, for any starting frame count `n`: one line
for every multiple of 100 among `n+1 .. n+F`, each with the clock reading taken
for it; the clock is read once per line and the count ends at `n + F`. -/
theorem processLoop_cout (lib : Lib) (w : World) (start : Int) (rest : List (Option Mat))
    (hrest : ∀ f tl, rest ≠ some f :: tl) (fs : List Mat) :
    ∀ (fuel : Nat) (e : VideoEnhancer) (sys : Sys) (n : Nat),
      fs.length < fuel → e.cap.opened = true → e.cap.pending = fs.map some ++ rest →
      (VideoEnhancer.processLoop lib w start fuel e sys n).2.2 = n + fs.length ∧
      (VideoEnhancer.processLoop lib w start fuel e sys n).2.1.clockReads =
        sys.clockReads + ((n + fs.length) / 100 - n / 100) ∧
      (VideoEnhancer.processLoop lib w start fuel e sys n).2.1.cout =
        sys.cout ++ ((List.range' (n + 1) fs.length).filter (fun m => m % 100 = 0)).map
          (fun m => progressLine m
            (elapsedSeconds w start (w.clock (sys.clockReads + (m / 100 - n / 100 - 1))))) := by
  induction fs with
  | nil =>
    intro fuel e sys n hfuel _ hp
    obtain ⟨k, rfl⟩ : ∃ k, fuel = k + 1 := ⟨fuel - 1, by simp at hfuel; omega⟩
    have hstop := processLoop_stop lib w start k e sys n (by
      intro f tl h
      rw [hp] at h
      exact hrest f tl (by simpa using h))
    rw [hstop.2.1, hstop.2.2.1, hstop.2.2.2]
    simp
  | cons f fs ih =>
    intro fuel e sys n hfuel ho hp
    obtain ⟨k, rfl⟩ : ∃ k, fuel = k + 1 := ⟨fuel - 1, by simp at hfuel; omega⟩
    rw [processLoop_read lib w start k e sys n f (fs.map some ++ rest) ho (by simpa using hp)]
    have hb := loopBody_cout lib w start f
      { e with cap := { e.cap with pending := fs.map some ++ rest } }
      { sys with calls := sys.calls ++ [Call.capRead] } n
    have hc := loopBody_count lib w start f
      { e with cap := { e.cap with pending := fs.map some ++ rest } }
      { sys with calls := sys.calls ++ [Call.capRead] } n
    have he := loopBody_enhancer lib w start f
      { e with cap := { e.cap with pending := fs.map some ++ rest } }
      { sys with calls := sys.calls ++ [Call.capRead] } n
    generalize VideoEnhancer.loopBody lib w start f
      { e with cap := { e.cap with pending := fs.map some ++ rest } }
      { sys with calls := sys.calls ++ [Call.capRead] } n = B at hb hc he ⊢
    obtain ⟨e1, sys1, n1⟩ := B
    simp only at hb hc he
    have hi := ih k e1 sys1 n1 (by simp at hfuel; omega) (by rw [he]; exact ho) (by rw [he])
    simp only
    rw [hi.1, hi.2.1, hi.2.2, hc, hb.1, hb.2]
    refine ⟨by simp; omega, ?_, ?_⟩
    · simp only [List.length_cons]
      split_ifs with h <;> omega
    · rw [List.length_cons, List.range'_succ, List.filter_cons]
      by_cases h : (n + 1) % 100 = 0
      · simp only [h, if_true, decide_True, List.map_cons, List.append_assoc, List.singleton_append]
        have h0 : (n + 1) / 100 - n / 100 - 1 = 0 := by omega
        rw [h0, Nat.add_zero]
        congr 2
        apply List.map_congr_left
        intro m hm
        rw [List.mem_filter, List.mem_range'_1] at hm
        have hm2 : m % 100 = 0 := by simpa using hm.2
        have : sys.clockReads + 1 + (m / 100 - (n + 1) / 100 - 1)
            = sys.clockReads + (m / 100 - n / 100 - 1) := by omega
        rw [this]
      · simp only [h, if_false, decide_False, List.append_nil, Nat.add_zero]
        congr 1
        apply List.map_congr_left
        intro m hm
        have : (n + 1) / 100 = n / 100 := by omega
        rw [this]


/-- The value of `process` in terms of its loop. -/
theorem process_eq (lib : Lib) (w : World) (e : VideoEnhancer) (sys : Sys) :
    VideoEnhancer.process lib w e sys =
      ((VideoEnhancer.processLoop lib w (w.clock sys.clockReads) (e.cap.pending.length + 1) e
          { sys with clockReads := sys.clockReads + 1 } 0).1,
        { (VideoEnhancer.processLoop lib w (w.clock sys.clockReads) (e.cap.pending.length + 1) e
              { sys with clockReads := sys.clockReads + 1 } 0).2.1 with
          clockReads := (VideoEnhancer.processLoop lib w (w.clock sys.clockReads)
              (e.cap.pending.length + 1) e { sys with clockReads := sys.clockReads + 1 } 0).2.1.clockReads + 1
          cout := (VideoEnhancer.processLoop lib w (w.clock sys.clockReads)
              (e.cap.pending.length + 1) e { sys with clockReads := sys.clockReads + 1 } 0).2.1.cout ++
            [summaryLine
              (VideoEnhancer.processLoop lib w (w.clock sys.clockReads)
                (e.cap.pending.length + 1) e { sys with clockReads := sys.clockReads + 1 } 0).2.2
              (elapsedSeconds w (w.clock sys.clockReads)
                (w.clock (VideoEnhancer.processLoop lib w (w.clock sys.clockReads)
                  (e.cap.pending.length + 1) e
                  { sys with clockReads := sys.clockReads + 1 } 0).2.1.clockReads))] }) := by
  rfl

/-- The frames `process` appends to an open writer: the finished frame of every
frame read before the first failing read, in reading order. -/
theorem process_written (lib : Lib) (w : World) (e : VideoEnhancer) (sys : Sys)
    (fs : List Mat) (rest : List (Option Mat))
    (hcap : e.cap.opened = true) (hwriter : e.writer.opened = true)
    (hframes : e.cap.pending = fs.map some ++ rest)
    (hfail : ∀ f tl, rest ≠ some f :: tl) :
    (VideoEnhancer.process lib w e sys).1.writer.written =
      e.writer.written ++ fs.map (fun f => e.enhanceContrast lib (e.denoise lib f)) := by
  rw [process_eq]
  exact processLoop_written lib w _ rest hfail fs _ e _ 0
    (by rw [hframes]; simp; omega) hcap hwriter hframes

/-- The lines `process` prints: a progress line for each full hundred of frames,
then the summary line. -/
theorem process_cout (lib : Lib) (w : World) (e : VideoEnhancer) (sys : Sys)
    (fs : List Mat) (rest : List (Option Mat))
    (hcap : e.cap.opened = true)
    (hframes : e.cap.pending = fs.map some ++ rest)
    (hfail : ∀ f tl, rest ≠ some f :: tl) :
    (VideoEnhancer.process lib w e sys).2.cout =
      sys.cout ++
      (List.range (fs.length / 100)).map (fun k =>
        progressLine (100 * (k + 1))
          (elapsedSeconds w (w.clock sys.clockReads) (w.clock (sys.clockReads + 1 + k)))) ++
      [summaryLine fs.length
        (elapsedSeconds w (w.clock sys.clockReads)
          (w.clock (sys.clockReads + 1 + fs.length / 100)))] := by
  have hl := processLoop_cout lib w (w.clock sys.clockReads) rest hfail fs
    (e.cap.pending.length + 1) e { sys with clockReads := sys.clockReads + 1 } 0
    (by rw [hframes]; simp; omega) hcap hframes
  rw [process_eq]
  simp only
  rw [hl.1, hl.2.1, hl.2.2, multiples_of_100, List.map_map]
  simp only [Nat.zero_add, Nat.zero_div, Nat.sub_zero]
  congr 2
  apply List.map_congr_left
  intro k _
  have hk : 100 * (k + 1) / 100 - 1 = k := by omega
  simp only [Function.comp, hk]

/-- C1: when the input stream delivers the frames `f_1..f_F` (`fs`) and its next
read fails, `process`, run with both streams open, appends exactly `F` frames to
the output, the `i`-th of them being `enhanceContrast (denoise f_i)`: nothing is
dropped, duplicated, skipped or reordered. -/
theorem process_writes_every_frame (lib : Lib) (w : World) (e : VideoEnhancer) (sys : Sys)
    (fs : List Mat) (rest : List (Option Mat))
    (hcap : e.cap.opened = true) (hwriter : e.writer.opened = true)
    (hframes : e.cap.pending = fs.map some ++ rest)
    (hfail : ∀ f tl, rest ≠ some f :: tl) :
    (VideoEnhancer.process lib w e sys).1.writer.written =
      e.writer.written ++ fs.map (fun f => e.enhanceContrast lib (e.denoise lib f)) ∧
    (VideoEnhancer.process lib w e sys).1.writer.written.length =
      e.writer.written.length + fs.length ∧
    ∀ i (hi : i < fs.length),
      (VideoEnhancer.process lib w e sys).1.writer.written[e.writer.written.length + i]? =
        some (e.enhanceContrast lib (e.denoise lib fs[i])) := by
  have hw := process_written lib w e sys fs rest hcap hwriter hframes hfail
  refine ⟨hw, by rw [hw]; simp, fun i hi => ?_⟩
  rw [hw, List.getElem?_append_right (Nat.le_add_right _ _)]
  simp [hi]

/-- C6: when the input delivers `F` frames, `process` prints exactly `F / 100`
progress lines, the `k`-th reading `Processed 100*k frames in <t>s` (in
increasing order of `k`), and then exactly one summary line
`Completed F frames in <t> seconds`.  A 3-frame input gives no progress line and
a summary starting `Completed 3 frames`; an empty input gives a summary starting
`Completed 0 frames`. -/
theorem process_progress_lines (lib : Lib) (w : World) (e : VideoEnhancer) (sys : Sys)
    (fs : List Mat) (rest : List (Option Mat))
    (hcap : e.cap.opened = true)
    (hframes : e.cap.pending = fs.map some ++ rest)
    (hfail : ∀ f tl, rest ≠ some f :: tl) :
    (VideoEnhancer.process lib w e sys).2.cout =
      sys.cout ++
      (List.range (fs.length / 100)).map (fun k =>
        "Processed " ++ toString (100 * (k + 1)) ++ " frames in " ++
          toString (elapsedSeconds w (w.clock sys.clockReads) (w.clock (sys.clockReads + 1 + k)))
          ++ "s") ++
      ["Completed " ++ toString fs.length ++ " frames in " ++
          toString (elapsedSeconds w (w.clock sys.clockReads)
            (w.clock (sys.clockReads + 1 + fs.length / 100))) ++ " seconds"] ∧
    (fs.length = 3 → ∃ t : Int, (VideoEnhancer.process lib w e sys).2.cout =
      sys.cout ++ ["Completed 3 frames" ++ (" in " ++ toString t ++ " seconds")]) ∧
    (fs.length = 0 → ∃ t : Int, (VideoEnhancer.process lib w e sys).2.cout =
      sys.cout ++ ["Completed 0 frames" ++ (" in " ++ toString t ++ " seconds")]) := by
  have hc : (VideoEnhancer.process lib w e sys).2.cout =
      sys.cout ++
      (List.range (fs.length / 100)).map (fun k =>
        "Processed " ++ toString (100 * (k + 1)) ++ " frames in " ++
          toString (elapsedSeconds w (w.clock sys.clockReads) (w.clock (sys.clockReads + 1 + k)))
          ++ "s") ++
      ["Completed " ++ toString fs.length ++ " frames in " ++
          toString (elapsedSeconds w (w.clock sys.clockReads)
            (w.clock (sys.clockReads + 1 + fs.length / 100))) ++ " seconds"] :=
    process_cout lib w e sys fs rest hcap hframes hfail
  refine ⟨hc, fun h3 => ?_, fun h0 => ?_⟩
  · refine ⟨elapsedSeconds w (w.clock sys.clockReads) (w.clock (sys.clockReads + 1 + 3 / 100)), ?_⟩
    rw [hc, h3]
    simp only [Nat.reduceDiv, List.range_zero, List.map_nil, List.append_nil, String.append_assoc]
    rfl
  · refine ⟨elapsedSeconds w (w.clock sys.clockReads) (w.clock (sys.clockReads + 1 + 0 / 100)), ?_⟩
    rw [hc, h0]
    simp only [Nat.reduceDiv, List.range_zero, List.map_nil, List.append_nil, String.append_assoc]
    rfl


/-! ## Initialisation, `main` and the destructor -/

/-- Converting a whole number held in a `double` to `int` gives it back. -/
theorem doubleToInt_natCast (n : Nat) : doubleToInt (n : ℚ) = (n : Int) := by
  simp [doubleToInt]

/-- `initialize` when the input cannot be opened. -/
theorem initialize_input_fails (w : World) (e : VideoEnhancer) (sys : Sys)
    (input output : String) (hin : w.videoFiles input = none) :
    VideoEnhancer.initialize w e sys input output =
      (false, { e with cap := {} },
        { sys with
          calls := sys.calls ++ [Call.capOpen input]
          cerr := sys.cerr ++ ["Cannot open input: " ++ input] }) := by
  simp [ VideoEnhancer.initialize, VideoCapture.open, hin, VideoCapture.isOpened]

/-- `initialize` when the input opens and the output cannot be opened. -/
theorem initialize_output_fails (w : World) (e : VideoEnhancer) (sys : Sys)
    (input output : String) (vf : VideoFile) (hin : w.videoFiles input = some vf)
    (hout : w.canCreate output (fourcc 'X' 'V' 'I' 'D') vf.fps
      ⟨vf.width, vf.height⟩ true = false) :
    VideoEnhancer.initialize w e sys input output =
      (false,
        { e with
          cap := { opened := true, width := vf.width, height := vf.height, fps := vf.fps,
                   pending := vf.frames }
          frameSize := ⟨vf.width, vf.height⟩
          fps := vf.fps
          writer := {} },
        { sys with
          calls := sys.calls ++ [Call.capOpen input, Call.writerOpen output]
          cerr := sys.cerr ++ ["Cannot open output: " ++ output] }) := by
  simp [ VideoEnhancer.initialize, VideoCapture.open, hin, VideoCapture.isOpened,
    VideoCapture.get, doubleToInt_natCast, VideoWriter.open, hout, VideoWriter.isOpened]

/-- `initialize` when both streams open. -/
theorem initialize_succeeds (w : World) (e : VideoEnhancer) (sys : Sys)
    (input output : String) (vf : VideoFile) (hin : w.videoFiles input = some vf)
    (hout : w.canCreate output (fourcc 'X' 'V' 'I' 'D') vf.fps
      ⟨vf.width, vf.height⟩ true = true) :
    VideoEnhancer.initialize w e sys input output =
      (true,
        { e with
          cap := { opened := true, width := vf.width, height := vf.height, fps := vf.fps,
                   pending := vf.frames }
          frameSize := ⟨vf.width, vf.height⟩
          fps := vf.fps
          writer := { opened := true, filename := output, fourcc := fourcc 'X' 'V' 'I' 'D',
                      fps := vf.fps, frameSize := ⟨vf.width, vf.height⟩, isColor := true,
                      written := [] } },
        { sys with calls := sys.calls ++ [Call.capOpen input, Call.writerOpen output] }) := by
  simp [ VideoEnhancer.initialize, VideoCapture.open, hin, VideoCapture.isOpened,
    VideoCapture.get, doubleToInt_natCast, VideoWriter.open, hout, VideoWriter.isOpened]

/-- The three ways `initialize` can go. -/
theorem initialize_cases (w : World) (input output : String) :
    w.videoFiles input = none ∨
    (∃ vf, w.videoFiles input = some vf ∧
      w.canCreate output (fourcc 'X' 'V' 'I' 'D') vf.fps ⟨vf.width, vf.height⟩ true = false) ∨
    (∃ vf, w.videoFiles input = some vf ∧
      w.canCreate output (fourcc 'X' 'V' 'I' 'D') vf.fps ⟨vf.width, vf.height⟩ true = true) := by
  rcases h : w.videoFiles input with _ | vf
  · exact Or.inl rfl
  · rcases h2 : w.canCreate output (fourcc 'X' 'V' 'I' 'D') vf.fps ⟨vf.width, vf.height⟩ true
    · exact Or.inr (Or.inl ⟨vf, rfl, h2⟩)
    · exact Or.inr (Or.inr ⟨vf, rfl, h2⟩)


/-- `main` in terms of `initialize`, `setParams`, `process` and the destructor. -/
theorem main_eq (lib : Lib) (w : World) (argv : List String) :
    main lib w argv =
      if ( VideoEnhancer.initialize w {} {} (parseArgs argv).1 (parseArgs argv).2).1 = false then
        (-1,
          (( VideoEnhancer.initialize w {} {} (parseArgs argv).1 (parseArgs argv).2).2.1.destroy
            ( VideoEnhancer.initialize w {} {} (parseArgs argv).1 (parseArgs argv).2).2.2).1,
          (( VideoEnhancer.initialize w {} {} (parseArgs argv).1 (parseArgs argv).2).2.1.destroy
            ( VideoEnhancer.initialize w {} {} (parseArgs argv).1 (parseArgs argv).2).2.2).2)
      else
        (0,
          ((VideoEnhancer.process lib w
              (( VideoEnhancer.initialize w {} {} (parseArgs argv).1
                (parseArgs argv).2).2.1.setParams 10 1.2 10)
              ( VideoEnhancer.initialize w {} {} (parseArgs argv).1 (parseArgs argv).2).2.2).1.destroy
            (VideoEnhancer.process lib w
              (( VideoEnhancer.initialize w {} {} (parseArgs argv).1
                (parseArgs argv).2).2.1.setParams 10 1.2 10)
              ( VideoEnhancer.initialize w {} {} (parseArgs argv).1 (parseArgs argv).2).2.2).2).1,
          ((VideoEnhancer.process lib w
              (( VideoEnhancer.initialize w {} {} (parseArgs argv).1
                (parseArgs argv).2).2.1.setParams 10 1.2 10)
              ( VideoEnhancer.initialize w {} {} (parseArgs argv).1 (parseArgs argv).2).2.2).1.destroy
            (VideoEnhancer.process lib w
              (( VideoEnhancer.initialize w {} {} (parseArgs argv).1
                (parseArgs argv).2).2.1.setParams 10 1.2 10)
              ( VideoEnhancer.initialize w {} {} (parseArgs argv).1 (parseArgs argv).2).2.2).2).2) := by
  unfold main
  rcases h : VideoEnhancer.initialize w {} {} (parseArgs argv).1 (parseArgs argv).2 with ⟨ok, e1, s1⟩
  cases ok
  · simp [h]
  · simp [h]

/-- The destructor leaves both streams closed. -/
theorem destroy_closed (e : VideoEnhancer) (sys : Sys) :
    (e.destroy sys).1.cap.opened = false ∧ (e.destroy sys).1.writer.opened = false := by
  unfold VideoEnhancer.destroy VideoCapture.isOpened VideoWriter.isOpened
    VideoCapture.release VideoWriter.release
  cases hc : e.cap.opened <;> cases hw : e.writer.opened <;> simp [hc, hw]

/-- A failed or successful read leaves the capture as open as it was. -/
theorem read_opened (c : VideoCapture) (sys : Sys) : (c.read sys).2.1.opened = c.opened := by
  unfold VideoCapture.read
  simp only
  split
  · split <;> rfl
  · rfl

/-- The loop changes neither the writer's settings, nor the session's frame size
and frame rate, nor the parameters, nor which streams are open. -/
theorem processLoop_config (lib : Lib) (w : World) (start : Int) :
    ∀ (fuel : Nat) (e : VideoEnhancer) (sys : Sys) (n : Nat),
      (VideoEnhancer.processLoop lib w start fuel e sys n).1.writer.opened = e.writer.opened ∧
      (VideoEnhancer.processLoop lib w start fuel e sys n).1.writer.fourcc = e.writer.fourcc ∧
      (VideoEnhancer.processLoop lib w start fuel e sys n).1.writer.fps = e.writer.fps ∧
      (VideoEnhancer.processLoop lib w start fuel e sys n).1.writer.frameSize
        = e.writer.frameSize ∧
      (VideoEnhancer.processLoop lib w start fuel e sys n).1.frameSize = e.frameSize ∧
      (VideoEnhancer.processLoop lib w start fuel e sys n).1.fps = e.fps ∧
      (VideoEnhancer.processLoop lib w start fuel e sys n).1.cap.opened = e.cap.opened := by
  intro fuel
  induction fuel with
  | zero => intro e sys n; simp [VideoEnhancer.processLoop]
  | succ k ih =>
    intro e sys n
    have hro := read_opened e.cap sys
    unfold VideoEnhancer.processLoop
    rcases hr : e.cap.read sys with ⟨o, cap1, sys1⟩
    rw [hr] at hro
    cases o with
    | none => simpa using hro
    | some frame =>
      simp only
      have he := loopBody_enhancer lib w start frame { e with cap := cap1 } sys1 n
      generalize VideoEnhancer.loopBody lib w start frame { e with cap := cap1 } sys1 n = B at he ⊢
      obtain ⟨e2, sys2, n2⟩ := B
      simp only at he ⊢
      have hi := ih e2 sys2 n2
      have hb : e2.writer.opened = e.writer.opened ∧ e2.writer.fourcc = e.writer.fourcc ∧
          e2.writer.fps = e.writer.fps ∧ e2.writer.frameSize = e.writer.frameSize ∧
          e2.frameSize = e.frameSize ∧ e2.fps = e.fps ∧ e2.cap.opened = e.cap.opened := by
        rw [he]
        simp only [VideoWriter.write]
        have hro2 : cap1.opened = e.cap.opened := hro
        split_ifs <;> simp [hro2]
      obtain ⟨a1, a2, a3, a4, a5, a6, a7⟩ := hi
      obtain ⟨b1, b2, b3, b4, b5, b6, b7⟩ := hb
      exact ⟨a1.trans b1, a2.trans b2, a3.trans b3, a4.trans b4, a5.trans b5, a6.trans b6,
        a7.trans b7⟩

/-- C1 at a concrete input: on the three-frame example `process` writes the
three finished frames in order. -/
theorem process_writes_every_frame_witness :
    (VideoEnhancer.process exampleLib exampleWorld exampleEnhancer {}).1.writer.written =
      [exampleEnhancer.enhanceContrast exampleLib
          (exampleEnhancer.denoise exampleLib (exampleFrame 0)),
        exampleEnhancer.enhanceContrast exampleLib
          (exampleEnhancer.denoise exampleLib (exampleFrame 100)),
        exampleEnhancer.enhanceContrast exampleLib
          (exampleEnhancer.denoise exampleLib (exampleFrame 250))] ∧
    (VideoEnhancer.process exampleLib exampleWorld exampleEnhancer {}).1.writer.written.length
      = 3 :=
  have h := process_writes_every_frame exampleLib exampleWorld exampleEnhancer {}
    [exampleFrame 0, exampleFrame 100, exampleFrame 250] [] rfl rfl rfl
    (fun _ _ hne => List.noConfusion hne)
  ⟨h.1, h.2.1⟩

/-- C6 at a concrete input: the three-frame example prints no progress line and
the summary `Completed 3 frames in 1 seconds`. -/
theorem process_progress_lines_witness :
    (VideoEnhancer.process exampleLib exampleWorld exampleEnhancer {}).2.cout =
      ["Completed 3 frames in 1 seconds"] := by
  rw [(process_progress_lines exampleLib exampleWorld exampleEnhancer {}
    [exampleFrame 0, exampleFrame 100, exampleFrame 250] [] rfl rfl
    (fun _ _ hne => List.noConfusion hne)).1]
  decide


/-- What the destructor leaves untouched, and the calls it makes: one release
for each stream that is open. -/
theorem destroy_effect (e : VideoEnhancer) (sys : Sys) :
    (e.destroy sys).1.writer.written = e.writer.written ∧
    (e.destroy sys).2.cout = sys.cout ∧
    (e.destroy sys).2.cerr = sys.cerr ∧
    (e.destroy sys).2.clockReads = sys.clockReads ∧
    (e.destroy sys).2.calls =
      sys.calls ++ (if e.cap.opened then [Call.capRelease] else []) ++
        (if e.writer.opened then [Call.writerRelease] else []) := by
  unfold VideoEnhancer.destroy VideoCapture.isOpened VideoWriter.isOpened
    VideoCapture.release VideoWriter.release
  cases hc : e.cap.opened <;> cases hw : e.writer.opened <;> simp [hc, hw]

/-- One pass of the loop body makes one call: the write. -/
theorem loopBody_calls (lib : Lib) (w : World) (start : Int) (f : Mat)
    (e : VideoEnhancer) (sys : Sys) (n : Nat) :
    (VideoEnhancer.loopBody lib w start f e sys n).2.1.calls =
      sys.calls ++ [Call.writerWrite] := by
  unfold VideoEnhancer.loopBody VideoWriter.write Sys.now
  simp only
  split_ifs <;> rfl

/-- A read logs itself and nothing else. -/
theorem read_calls (c : VideoCapture) (sys : Sys) :
    (c.read sys).2.2.calls = sys.calls ++ [Call.capRead] := by
  unfold VideoCapture.read
  simp only
  split
  · split <;> rfl
  · rfl

/-- The loop only adds to the record of calls, and what it adds are reads and
writes. -/
theorem processLoop_calls (lib : Lib) (w : World) (start : Int) :
    ∀ (fuel : Nat) (e : VideoEnhancer) (sys : Sys) (n : Nat),
      ∃ l, (VideoEnhancer.processLoop lib w start fuel e sys n).2.1.calls = sys.calls ++ l ∧
        ∀ c ∈ l, c = Call.capRead ∨ c = Call.writerWrite := by
  intro fuel
  induction fuel with
  | zero => intro e sys n; exact ⟨[], by simp [VideoEnhancer.processLoop]⟩
  | succ k ih =>
    intro e sys n
    have hrc := read_calls e.cap sys
    unfold VideoEnhancer.processLoop
    rcases hr : e.cap.read sys with ⟨o, cap1, sys1⟩
    rw [hr] at hrc
    have hrc2 : sys1.calls = sys.calls ++ [Call.capRead] := hrc
    cases o with
    | none => exact ⟨[Call.capRead], hrc2, by simp⟩
    | some frame =>
      simp only
      have hb := loopBody_calls lib w start frame { e with cap := cap1 } sys1 n
      generalize VideoEnhancer.loopBody lib w start frame { e with cap := cap1 } sys1 n = B at hb ⊢
      obtain ⟨e2, sys2, n2⟩ := B
      simp only at hb ⊢
      obtain ⟨l, hl, hmem⟩ := ih e2 sys2 n2
      refine ⟨[Call.capRead, Call.writerWrite] ++ l, by rw [hl, hb, hrc2]; simp, ?_⟩
      intro c hc
      simp only [List.mem_append, List.mem_cons, List.mem_singleton, List.not_mem_nil,
        or_false] at hc
      rcases hc with (hc | hc) | hc
      · exact Or.inl hc
      · exact Or.inr hc
      · exact hmem c hc

/-- `process` only adds to the record of calls, and what it adds are reads and
writes. -/
theorem process_calls (lib : Lib) (w : World) (e : VideoEnhancer) (sys : Sys) :
    ∃ l, (VideoEnhancer.process lib w e sys).2.calls = sys.calls ++ l ∧
      ∀ c ∈ l, c = Call.capRead ∨ c = Call.writerWrite := by
  rw [process_eq]
  exact processLoop_calls lib w _ _ e _ 0

/-- `process` changes neither the writer's settings, nor the session's frame
size and frame rate, nor which streams are open. -/
theorem process_config (lib : Lib) (w : World) (e : VideoEnhancer) (sys : Sys) :
    (VideoEnhancer.process lib w e sys).1.writer.opened = e.writer.opened ∧
    (VideoEnhancer.process lib w e sys).1.writer.fourcc = e.writer.fourcc ∧
    (VideoEnhancer.process lib w e sys).1.writer.fps = e.writer.fps ∧
    (VideoEnhancer.process lib w e sys).1.writer.frameSize = e.writer.frameSize ∧
    (VideoEnhancer.process lib w e sys).1.frameSize = e.frameSize ∧
    (VideoEnhancer.process lib w e sys).1.fps = e.fps ∧
    (VideoEnhancer.process lib w e sys).1.cap.opened = e.cap.opened := by
  rw [process_eq]
  exact processLoop_config lib w (w.clock sys.clockReads) (e.cap.pending.length + 1) e
    { sys with clockReads := sys.clockReads + 1 } 0

/-- A run of `process` followed by the destructor, both streams being open:
the calls made end with the release of the reader and of the writer, the only
releases made. -/
theorem session_releases (lib : Lib) (w : World) (e : VideoEnhancer) (sys : Sys)
    (hc : e.cap.opened = true) (hw : e.writer.opened = true) :
    ∃ l, ((VideoEnhancer.process lib w e sys).1.destroy
        (VideoEnhancer.process lib w e sys).2).2.calls =
          (sys.calls ++ l) ++ [Call.capRelease, Call.writerRelease] ∧
      ∀ c ∈ l, c = Call.capRead ∨ c = Call.writerWrite := by
  obtain ⟨l, hl, hmem⟩ := process_calls lib w e sys
  obtain ⟨p1, _, _, _, _, _, p7⟩ := process_config lib w e sys
  refine ⟨l, ?_, hmem⟩
  rw [(destroy_effect _ _).2.2.2.2, hl, p1, p7, hc, hw]
  simp

/-- Running `process` and then the destructor keeps the calls made before. -/
theorem session_calls (lib : Lib) (w : World) (e : VideoEnhancer) (sys : Sys)
    (c1 c2 : Call) (h : sys.calls = [c1, c2]) :
    ((VideoEnhancer.process lib w e sys).1.destroy
        (VideoEnhancer.process lib w e sys).2).2.calls.head? = some c1 ∧
    ((VideoEnhancer.process lib w e sys).1.destroy
        (VideoEnhancer.process lib w e sys).2).2.calls.take 2 = [c1, c2] := by
  obtain ⟨l, hl, _⟩ := process_calls lib w e sys
  rw [(destroy_effect _ _).2.2.2.2, hl, h]
  simp

/-- C2: `main` returns -1 exactly when opening the input fails or opening the
output fails, and 0 in every other case, whatever frames the input holds (an
input without any frame included); it returns nothing else. -/
theorem main_exit_code (lib : Lib) (w : World) (argv : List String) :
    ((main lib w argv).1 = -1 ↔
      (w.videoFiles (parseArgs argv).1 = none ∨
        ∃ vf, w.videoFiles (parseArgs argv).1 = some vf ∧
          w.canCreate (parseArgs argv).2 (fourcc 'X' 'V' 'I' 'D') vf.fps
            ⟨vf.width, vf.height⟩ true = false)) ∧
    ((main lib w argv).1 = 0 ↔
      ∃ vf, w.videoFiles (parseArgs argv).1 = some vf ∧
        w.canCreate (parseArgs argv).2 (fourcc 'X' 'V' 'I' 'D') vf.fps
          ⟨vf.width, vf.height⟩ true = true) ∧
    ((main lib w argv).1 = -1 ↔
      ( VideoEnhancer.initialize w {} {} (parseArgs argv).1 (parseArgs argv).2).1 = false) ∧
    ((main lib w argv).1 = -1 ∨ (main lib w argv).1 = 0) := by
  rw [main_eq]
  rcases initialize_cases w (parseArgs argv).1 (parseArgs argv).2 with
    hin | ⟨vf, hin, hout⟩ | ⟨vf, hin, hout⟩
  · rw [initialize_input_fails w {} {} _ _ hin]
    simp [hin]
  · rw [initialize_output_fails w {} {} _ _ vf hin hout]
    simp [hin, hout]
  · rw [initialize_succeeds w {} {} _ _ vf hin hout]
    simp [hin, hout]

/-- C3: the paths `main` uses are `input.mp4` and `output.avi` without an
argument, `argv[1]` and `output.avi` with one argument, `argv[1]` and `argv[2]`
with two, and arguments after the second change nothing: `main` then behaves
exactly as with the first two alone. -/
theorem main_paths (lib : Lib) (w : World) (prog a b : String) (more : List String) :
    parseArgs [] = ("input.mp4", "output.avi") ∧
    parseArgs [prog] = ("input.mp4", "output.avi") ∧
    parseArgs [prog, a] = (a, "output.avi") ∧
    parseArgs [prog, a, b] = (a, b) ∧
    parseArgs (prog :: a :: b :: more) = (a, b) ∧
    main lib w (prog :: a :: b :: more) = main lib w [prog, a, b] ∧
    main lib w [prog, a] = main lib w [prog, a, "output.avi"] ∧
    main lib w [prog] = main lib w [prog, "input.mp4", "output.avi"] ∧
    (main lib w (prog :: a :: b :: more)).2.2.calls.head? = some (Call.capOpen a) ∧
    (∀ vf, w.videoFiles a = some vf →
      (main lib w (prog :: a :: b :: more)).2.2.calls.take 2 =
        [Call.capOpen a, Call.writerOpen b]) := by
  have h0 : parseArgs [] = ("input.mp4", "output.avi") := rfl
  have h1 : parseArgs [prog] = ("input.mp4", "output.avi") := rfl
  have h2 : parseArgs [prog, a] = (a, "output.avi") := rfl
  have h3 : parseArgs [prog, a, b] = (a, b) := rfl
  have h4 : parseArgs (prog :: a :: b :: more) = (a, b) := by
    simp [parseArgs]
  have hm : ∀ l1 l2 : List String, parseArgs l1 = parseArgs l2 → main lib w l1 = main lib w l2 := by
    intro l1 l2 h
    rw [main_eq, main_eq, h]
  refine ⟨h0, h1, h2, h3, h4, hm _ _ (h4.trans h3.symm), hm _ _ h2, hm _ _ h1, ?_, ?_⟩
  · rw [main_eq, h4]
    rcases initialize_cases w a b with hin | ⟨vf, hin, hout⟩ | ⟨vf, hin, hout⟩
    · rw [initialize_input_fails w {} {} _ _ hin]
      simp [(destroy_effect _ _).2.2.2.2]
    · rw [initialize_output_fails w {} {} _ _ vf hin hout]
      simp [(destroy_effect _ _).2.2.2.2]
    · rw [initialize_succeeds w {} {} _ _ vf hin hout]
      simp only [Bool.true_eq_false, if_false]
      exact (session_calls lib w _ _ _ _ rfl).1
  · intro vf hin
    rw [main_eq, h4]
    rcases Bool.eq_false_or_eq_true (w.canCreate b (fourcc 'X' 'V' 'I' 'D') vf.fps
      ⟨vf.width, vf.height⟩ true) with hout | hout
    · rw [initialize_succeeds w {} {} _ _ vf hin hout]
      simp only [Bool.true_eq_false, if_false]
      exact (session_calls lib w _ _ _ _ rfl).2
    · rw [initialize_output_fails w {} {} _ _ vf hin hout]
      simp [(destroy_effect _ _).2.2.2.2]


/-- C4: `initialize` returns false exactly when the input or the output cannot be
opened, and then adds exactly one line to the error stream:
`Cannot open input: <input path>` when the input failed to open, in which case
the only call made is the attempt to open the input (none to open the output),
and otherwise `Cannot open output: <output path>`.  When `initialize` fails in
`main`, `main` returns -1 having read no frame, written no frame, read no clock
and printed nothing on the output stream. -/
theorem initialize_failure_is_fatal (lib : Lib) (w : World) (e : VideoEnhancer) (sys : Sys)
    (input output : String) (argv : List String) :
    (( VideoEnhancer.initialize w e sys input output).1 = false ↔
      (w.videoFiles input = none ∨
        ∃ vf, w.videoFiles input = some vf ∧
          w.canCreate output (fourcc 'X' 'V' 'I' 'D') vf.fps
            ⟨vf.width, vf.height⟩ true = false)) ∧
    (w.videoFiles input = none →
      ( VideoEnhancer.initialize w e sys input output).2.2.cerr =
        sys.cerr ++ ["Cannot open input: " ++ input] ∧
      ( VideoEnhancer.initialize w e sys input output).2.2.calls =
        sys.calls ++ [Call.capOpen input]) ∧
    (∀ vf, w.videoFiles input = some vf →
      w.canCreate output (fourcc 'X' 'V' 'I' 'D') vf.fps ⟨vf.width, vf.height⟩ true = false →
      ( VideoEnhancer.initialize w e sys input output).2.2.cerr =
        sys.cerr ++ ["Cannot open output: " ++ output] ∧
      ( VideoEnhancer.initialize w e sys input output).2.2.calls =
        sys.calls ++ [Call.capOpen input, Call.writerOpen output]) ∧
    (( VideoEnhancer.initialize w e sys input output).1 = true →
      ( VideoEnhancer.initialize w e sys input output).2.2.cerr = sys.cerr) ∧
    (( VideoEnhancer.initialize w {} {} (parseArgs argv).1 (parseArgs argv).2).1 = false →
      (main lib w argv).1 = -1 ∧
      (main lib w argv).2.2.cout = [] ∧
      (main lib w argv).2.2.cerr.length = 1 ∧
      (main lib w argv).2.2.clockReads = 0 ∧
      (main lib w argv).2.1.writer.written = [] ∧
      Call.capRead ∉ (main lib w argv).2.2.calls ∧
      Call.writerWrite ∉ (main lib w argv).2.2.calls) := by
  refine ⟨?_, fun hin => ?_, fun vf hin hout => ?_, fun hok => ?_, fun hfail => ?_⟩
  · rcases initialize_cases w input output with hin | ⟨vf, hin, hout⟩ | ⟨vf, hin, hout⟩
    · rw [initialize_input_fails w e sys _ _ hin]; simp [hin]
    · rw [initialize_output_fails w e sys _ _ vf hin hout]; simp [hin, hout]
    · rw [initialize_succeeds w e sys _ _ vf hin hout]; simp [hin, hout]
  · rw [initialize_input_fails w e sys _ _ hin]; exact ⟨rfl, rfl⟩
  · rw [initialize_output_fails w e sys _ _ vf hin hout]; exact ⟨rfl, rfl⟩
  · rcases initialize_cases w input output with hin | ⟨vf, hin, hout⟩ | ⟨vf, hin, hout⟩
    · rw [initialize_input_fails w e sys _ _ hin] at hok; simp at hok
    · rw [initialize_output_fails w e sys _ _ vf hin hout] at hok; simp at hok
    · rw [initialize_succeeds w e sys _ _ vf hin hout]
  · rw [main_eq, if_pos hfail]
    simp only
    obtain ⟨d1, d2, d3, d4, d5⟩ := destroy_effect
      ( VideoEnhancer.initialize w {} {} (parseArgs argv).1 (parseArgs argv).2).2.1
      ( VideoEnhancer.initialize w {} {} (parseArgs argv).1 (parseArgs argv).2).2.2
    rw [d1, d2, d3, d4, d5]
    rcases initialize_cases w (parseArgs argv).1 (parseArgs argv).2 with
      hin | ⟨vf, hin, hout⟩ | ⟨vf, hin, hout⟩
    · rw [initialize_input_fails w {} {} _ _ hin]; simp
    · rw [initialize_output_fails w {} {} _ _ vf hin hout]; simp
    · rw [initialize_succeeds w {} {} _ _ vf hin hout] at hfail; simp at hfail

/-- C5: when `initialize` succeeds the writer is open and was opened with the
codec tag `XVID`, the frame rate queried from the input, and a frame size whose
width and height are the width and height queried from the input.  Neither
`process` nor `setParams` changes these settings or the session's frame size and
frame rate. -/
theorem initialize_writer_settings (w : World) (e : VideoEnhancer) (sys : Sys)
    (input output : String)
    (hok : ( VideoEnhancer.initialize w e sys input output).1 = true) :
    (∃ vf, w.videoFiles input = some vf ∧
      w.canCreate output (fourcc 'X' 'V' 'I' 'D') vf.fps ⟨vf.width, vf.height⟩ true = true ∧
      ( VideoEnhancer.initialize w e sys input output).2.1.cap.get .CAP_PROP_FPS = vf.fps ∧
      ( VideoEnhancer.initialize w e sys input output).2.1.cap.get .CAP_PROP_FRAME_WIDTH
        = vf.width ∧
      ( VideoEnhancer.initialize w e sys input output).2.1.cap.get .CAP_PROP_FRAME_HEIGHT
        = vf.height) ∧
    ( VideoEnhancer.initialize w e sys input output).2.1.writer.opened = true ∧
    ( VideoEnhancer.initialize w e sys input output).2.1.writer.fourcc = fourcc 'X' 'V' 'I' 'D' ∧
    fourcc 'X' 'V' 'I' 'D' = 0x44495658 ∧
    ( VideoEnhancer.initialize w e sys input output).2.1.writer.fps =
      ( VideoEnhancer.initialize w e sys input output).2.1.cap.get .CAP_PROP_FPS ∧
    (( VideoEnhancer.initialize w e sys input output).2.1.writer.frameSize.width : ℚ) =
      ( VideoEnhancer.initialize w e sys input output).2.1.cap.get .CAP_PROP_FRAME_WIDTH ∧
    (( VideoEnhancer.initialize w e sys input output).2.1.writer.frameSize.height : ℚ) =
      ( VideoEnhancer.initialize w e sys input output).2.1.cap.get .CAP_PROP_FRAME_HEIGHT ∧
    ( VideoEnhancer.initialize w e sys input output).2.1.frameSize =
      ( VideoEnhancer.initialize w e sys input output).2.1.writer.frameSize ∧
    ( VideoEnhancer.initialize w e sys input output).2.1.fps =
      ( VideoEnhancer.initialize w e sys input output).2.1.writer.fps ∧
    (∀ (lib : Lib) (w2 : World) (e2 : VideoEnhancer) (sys2 : Sys),
      (VideoEnhancer.process lib w2 e2 sys2).1.writer.opened = e2.writer.opened ∧
      (VideoEnhancer.process lib w2 e2 sys2).1.writer.fourcc = e2.writer.fourcc ∧
      (VideoEnhancer.process lib w2 e2 sys2).1.writer.fps = e2.writer.fps ∧
      (VideoEnhancer.process lib w2 e2 sys2).1.writer.frameSize = e2.writer.frameSize ∧
      (VideoEnhancer.process lib w2 e2 sys2).1.frameSize = e2.frameSize ∧
      (VideoEnhancer.process lib w2 e2 sys2).1.fps = e2.fps) ∧
    (∀ (e2 : VideoEnhancer) (h_val : Int) (alpha_val : ℚ) (beta_val : Int),
      (e2.setParams h_val alpha_val beta_val).writer = e2.writer ∧
      (e2.setParams h_val alpha_val beta_val).frameSize = e2.frameSize ∧
      (e2.setParams h_val alpha_val beta_val).fps = e2.fps) := by
  have hproc : ∀ (lib : Lib) (w2 : World) (e2 : VideoEnhancer) (sys2 : Sys),
      (VideoEnhancer.process lib w2 e2 sys2).1.writer.opened = e2.writer.opened ∧
      (VideoEnhancer.process lib w2 e2 sys2).1.writer.fourcc = e2.writer.fourcc ∧
      (VideoEnhancer.process lib w2 e2 sys2).1.writer.fps = e2.writer.fps ∧
      (VideoEnhancer.process lib w2 e2 sys2).1.writer.frameSize = e2.writer.frameSize ∧
      (VideoEnhancer.process lib w2 e2 sys2).1.frameSize = e2.frameSize ∧
      (VideoEnhancer.process lib w2 e2 sys2).1.fps = e2.fps := by
    intro lib w2 e2 sys2
    obtain ⟨c1, c2, c3, c4, c5, c6, _⟩ := process_config lib w2 e2 sys2
    exact ⟨c1, c2, c3, c4, c5, c6⟩
  rcases initialize_cases w input output with hin | ⟨vf, hin, hout⟩ | ⟨vf, hin, hout⟩
  · rw [initialize_input_fails w e sys _ _ hin] at hok; simp at hok
  · rw [initialize_output_fails w e sys _ _ vf hin hout] at hok; simp at hok
  · rw [initialize_succeeds w e sys _ _ vf hin hout]
    refine ⟨⟨vf, hin, hout, rfl, rfl, rfl⟩, rfl, rfl, by decide, rfl, ?_, ?_, rfl, rfl, hproc,
      fun e2 _ _ _ => ⟨rfl, rfl, rfl⟩⟩
    · simp [VideoCapture.get]
    · simp [VideoCapture.get]

/-- C5 at a concrete input: on the example world `initialize` succeeds. -/
theorem initialize_writer_settings_witness :
    ( VideoEnhancer.initialize exampleWorld {} {} "input.mp4" "output.avi").1 = true ∧
    ( VideoEnhancer.initialize exampleWorld {} {} "input.mp4" "output.avi").2.1.writer.fourcc
      = fourcc 'X' 'V' 'I' 'D' ∧
    ( VideoEnhancer.initialize exampleWorld {} {} "input.mp4" "output.avi").2.1.writer.fps
      = ( VideoEnhancer.initialize exampleWorld {} {} "input.mp4" "output.avi").2.1.cap.get
          .CAP_PROP_FPS :=
  have hok : ( VideoEnhancer.initialize exampleWorld {} {} "input.mp4" "output.avi").1 = true :=
    rfl
  have h := initialize_writer_settings exampleWorld {} {} "input.mp4" "output.avi" hok
  ⟨hok, h.2.2.1, h.2.2.2.2.1⟩

/-- C9: on every exit path of `main` (input open failure, output open failure,
normal completion) the enhancer is destroyed and afterwards both the reader and
the writer are closed.  The destructor releases a stream only if it is open:
after a failed input open it makes no release call, after a failed output open
it releases the reader only, after a completed run it releases both; applied to
a session whose streams are closed it changes nothing, and applying it twice is
the same as applying it once. -/
theorem destructor_releases_streams (lib : Lib) (w : World) (argv : List String) :
    ((main lib w argv).2.1.cap.opened = false ∧ (main lib w argv).2.1.writer.opened = false) ∧
    (w.videoFiles (parseArgs argv).1 = none →
      (main lib w argv).2.2.calls = [Call.capOpen (parseArgs argv).1]) ∧
    (∀ vf, w.videoFiles (parseArgs argv).1 = some vf →
      w.canCreate (parseArgs argv).2 (fourcc 'X' 'V' 'I' 'D') vf.fps
        ⟨vf.width, vf.height⟩ true = false →
      (main lib w argv).2.2.calls =
        [Call.capOpen (parseArgs argv).1, Call.writerOpen (parseArgs argv).2,
          Call.capRelease]) ∧
    (∀ vf, w.videoFiles (parseArgs argv).1 = some vf →
      w.canCreate (parseArgs argv).2 (fourcc 'X' 'V' 'I' 'D') vf.fps
        ⟨vf.width, vf.height⟩ true = true →
      ∃ l, (main lib w argv).2.2.calls = l ++ [Call.capRelease, Call.writerRelease] ∧
        Call.capRelease ∉ l ∧ Call.writerRelease ∉ l) ∧
    (∀ (e : VideoEnhancer) (sys : Sys),
      (e.destroy sys).1.cap.opened = false ∧ (e.destroy sys).1.writer.opened = false) ∧
    (∀ (e : VideoEnhancer) (sys : Sys), e.cap.opened = false → e.writer.opened = false →
      e.destroy sys = (e, sys)) ∧
    (∀ (e : VideoEnhancer) (sys : Sys),
      (e.destroy sys).1.destroy (e.destroy sys).2 = e.destroy sys) := by
  have hidem : ∀ (e : VideoEnhancer) (sys : Sys), e.cap.opened = false →
      e.writer.opened = false → e.destroy sys = (e, sys) := by
    intro e sys hc hw
    simp [VideoEnhancer.destroy, VideoCapture.isOpened, VideoWriter.isOpened, hc, hw]
  refine ⟨?_, fun hin => ?_, fun vf hin hout => ?_, fun vf hin hout => ?_, destroy_closed, hidem,
    fun e sys => hidem _ _ (destroy_closed e sys).1 (destroy_closed e sys).2⟩
  · rw [main_eq]
    split_ifs
    · exact destroy_closed _ _
    · exact destroy_closed _ _
  · rw [main_eq, initialize_input_fails w {} {} _ _ hin]
    simp [(destroy_effect _ _).2.2.2.2]
  · rw [main_eq, initialize_output_fails w {} {} _ _ vf hin hout]
    simp [(destroy_effect _ _).2.2.2.2]
  · have hinit := initialize_succeeds w {} {} _ _ vf hin hout
    have hc : (( VideoEnhancer.initialize w {} {} (parseArgs argv).1
        (parseArgs argv).2).2.1.setParams 10 1.2 10).cap.opened = true := by
      rw [hinit]; rfl
    have hw : (( VideoEnhancer.initialize w {} {} (parseArgs argv).1
        (parseArgs argv).2).2.1.setParams 10 1.2 10).writer.opened = true := by
      rw [hinit]; rfl
    have hcalls : ( VideoEnhancer.initialize w {} {} (parseArgs argv).1
        (parseArgs argv).2).2.2.calls =
          [Call.capOpen (parseArgs argv).1, Call.writerOpen (parseArgs argv).2] := by
      rw [hinit]; rfl
    obtain ⟨l, hl, hmem⟩ := session_releases lib w
      (( VideoEnhancer.initialize w {} {} (parseArgs argv).1
        (parseArgs argv).2).2.1.setParams 10 1.2 10)
      ( VideoEnhancer.initialize w {} {} (parseArgs argv).1 (parseArgs argv).2).2.2 hc hw
    rw [main_eq, if_neg (by rw [hinit]; simp)]
    refine ⟨_, hl, ?_, ?_⟩
    · intro hm
      rw [hcalls] at hm
      simp only [List.mem_append, List.mem_cons, List.not_mem_nil, or_false] at hm
      rcases hm with (h | h) | h
      · cases h
      · cases h
      · rcases hmem _ h with h2 | h2 <;> cases h2
    · intro hm
      rw [hcalls] at hm
      simp only [List.mem_append, List.mem_cons, List.not_mem_nil, or_false] at hm
      rcases hm with (h | h) | h
      · cases h
      · cases h
      · rcases hmem _ h with h2 | h2 <;> cases h2


/-- A read never lengthens the list of pending reads, and a read that delivers a
frame shortens it. -/
theorem read_pending (c : VideoCapture) (sys : Sys) :
    (c.read sys).2.1.pending.length ≤ c.pending.length ∧
    ((c.read sys).1.isSome = true → (c.read sys).2.1.pending.length < c.pending.length) := by
  by_cases ho : c.opened = true
  · rcases hpe : c.pending with _ | ⟨a, tl⟩
    · simp [VideoCapture.read, ho, hpe]
    · cases a <;> simp [VideoCapture.read, ho, hpe]
  · simp [VideoCapture.read, ho]

/-- The loop is ended by a failing read, never by its fuel: with more fuel than
pending reads, extra fuel changes nothing. -/
theorem processLoop_fuel (lib : Lib) (w : World) (start : Int) :
    ∀ (fuel : Nat) (e : VideoEnhancer) (sys : Sys) (n : Nat),
      e.cap.pending.length < fuel →
      VideoEnhancer.processLoop lib w start (fuel + 1) e sys n =
        VideoEnhancer.processLoop lib w start fuel e sys n := by
  intro fuel
  induction fuel with
  | zero => intro e sys n h; omega
  | succ k ih =>
    intro e sys n hlen
    have hp := read_pending e.cap sys
    conv_lhs => rw [VideoEnhancer.processLoop]
    conv_rhs => rw [VideoEnhancer.processLoop]
    rcases hr : e.cap.read sys with ⟨o, cap1, sys1⟩
    rw [hr] at hp
    cases o with
    | none => rfl
    | some frame =>
      simp only
      have he := loopBody_enhancer lib w start frame { e with cap := cap1 } sys1 n
      generalize VideoEnhancer.loopBody lib w start frame { e with cap := cap1 } sys1 n = B at he ⊢
      obtain ⟨e2, sys2, n2⟩ := B
      simp only at he ⊢
      apply ih
      rw [he]
      have := hp.2 rfl
      simp only at this ⊢
      omega

/-- The gain/bias step alone makes `enhanceContrast` non-idempotent: with the
stand-in library, whose routines return their image unchanged, and the default
gain 1.2 and bias 10, enhancing the all-zero frame gives channel value 10 and
enhancing it again gives 22; with gain 1 and bias 0 the same pipeline leaves that
frame as it is. -/
theorem enhanceContrast_gainBias_not_idempotent :
    VideoEnhancer.enhanceContrast exampleLib {} (exampleFrame 0) = exampleFrame 10 ∧
    VideoEnhancer.enhanceContrast exampleLib {} (exampleFrame 10) = exampleFrame 22 ∧
    VideoEnhancer.enhanceContrast exampleLib {}
        (VideoEnhancer.enhanceContrast exampleLib {} (exampleFrame 0)) ≠
      VideoEnhancer.enhanceContrast exampleLib {} (exampleFrame 0) ∧
    VideoEnhancer.enhanceContrast exampleLib (VideoEnhancer.setParams {} 10 1 0)
      (exampleFrame 0) = exampleFrame 0 := by
  have h0 : VideoEnhancer.enhanceContrast exampleLib {} (exampleFrame 0) = exampleFrame 10 := by
    simp [VideoEnhancer.enhanceContrast, exampleLib, exampleFrame, Mat.convertTo,
      List.modifyHead, gainBias_default_eq]
  have h1 : VideoEnhancer.enhanceContrast exampleLib {} (exampleFrame 10) = exampleFrame 22 := by
    simp [VideoEnhancer.enhanceContrast, exampleLib, exampleFrame, Mat.convertTo,
      List.modifyHead, gainBias_default_eq]
  refine ⟨h0, h1, ?_, ?_⟩
  · rw [h0, h1]
    decide
  · have hz : gainBias 1 0 0 = 0 := by
      have hr := saturate_cast_uchar_of_range 0 (le_refl _) (by norm_num)
      rw [cvRound_eq_of_abs_lt 0 0 (by norm_num)] at hr
      have hx : ((0 : Nat) : ℚ) * 1 + 0 = 0 := by norm_num
      unfold gainBias
      rw [hx]
      exact_mod_cast hr
    simp [VideoEnhancer.enhanceContrast, VideoEnhancer.setParams, exampleLib, exampleFrame,
      Mat.convertTo, List.modifyHead, hz]

/-- The fuel bound at a concrete input: on the three-frame example four read
attempts are as good as five. -/
theorem processLoop_fuel_witness :
    exampleEnhancer.cap.pending.length < 4 ∧
    VideoEnhancer.processLoop exampleLib exampleWorld 0 5 exampleEnhancer {} 0 =
      VideoEnhancer.processLoop exampleLib exampleWorld 0 4 exampleEnhancer {} 0 :=
  ⟨by decide, processLoop_fuel exampleLib exampleWorld 0 4 exampleEnhancer {} 0 (by decide)⟩

/-- The destructor leaves the writer's settings and the frames written as they
are. -/
theorem destroy_writer (e : VideoEnhancer) (sys : Sys) :
    (e.destroy sys).1.writer.written = e.writer.written ∧
    (e.destroy sys).1.writer.fps = e.writer.fps ∧
    (e.destroy sys).1.writer.frameSize = e.writer.frameSize ∧
    (e.destroy sys).1.writer.fourcc = e.writer.fourcc := by
  unfold VideoEnhancer.destroy VideoCapture.isOpened VideoWriter.isOpened
    VideoCapture.release VideoWriter.release
  cases hc : e.cap.opened <;> cases hw : e.writer.opened <;> simp

/-- The loop writes nothing to the error stream. -/
theorem processLoop_cerr (lib : Lib) (w : World) (start : Int) :
    ∀ (fuel : Nat) (e : VideoEnhancer) (sys : Sys) (n : Nat),
      (VideoEnhancer.processLoop lib w start fuel e sys n).2.1.cerr = sys.cerr := by
  intro fuel
  induction fuel with
  | zero => intro e sys n; rfl
  | succ k ih =>
    intro e sys n
    have hrc : (e.cap.read sys).2.2.cerr = sys.cerr := by
      unfold VideoCapture.read
      simp only
      split
      · split <;> rfl
      · rfl
    unfold VideoEnhancer.processLoop
    rcases hr : e.cap.read sys with ⟨o, cap1, sys1⟩
    rw [hr] at hrc
    have hrc2 : sys1.cerr = sys.cerr := hrc
    cases o with
    | none => exact hrc2
    | some frame =>
      simp only
      have hb : (VideoEnhancer.loopBody lib w start frame { e with cap := cap1 } sys1 n).2.1.cerr
          = sys1.cerr := by
        unfold VideoEnhancer.loopBody VideoWriter.write Sys.now
        simp only
        split_ifs <;> rfl
      generalize VideoEnhancer.loopBody lib w start frame { e with cap := cap1 } sys1 n = B at hb ⊢
      obtain ⟨e2, sys2, n2⟩ := B
      simp only at hb ⊢
      rw [ih e2 sys2 n2, hb, hrc2]

/-- `process` writes nothing to the error stream. -/
theorem process_cerr (lib : Lib) (w : World) (e : VideoEnhancer) (sys : Sys) :
    (VideoEnhancer.process lib w e sys).2.cerr = sys.cerr := by
  rw [process_eq]
  exact processLoop_cerr lib w _ _ e _ 0

/-- The whole program on an input that opens and delivers the frames `fs`
before its first failing read, the output opening too: `main` returns 0, the
output holds exactly the frames `enhanceContrast (denoise f)` for `f` in `fs`,
in order, computed with the default parameters, at the frame rate and frame size
of the input; the output stream shows the progress lines and the summary, the
error stream nothing. -/
theorem main_end_to_end (lib : Lib) (w : World) (argv : List String) (vf : VideoFile)
    (fs : List Mat) (rest : List (Option Mat))
    (hin : w.videoFiles (parseArgs argv).1 = some vf)
    (hout : w.canCreate (parseArgs argv).2 (fourcc 'X' 'V' 'I' 'D') vf.fps
      ⟨vf.width, vf.height⟩ true = true)
    (hframes : vf.frames = fs.map some ++ rest)
    (hfail : ∀ f tl, rest ≠ some f :: tl) :
    (main lib w argv).1 = 0 ∧
    (main lib w argv).2.1.writer.written =
      fs.map (fun f => VideoEnhancer.enhanceContrast lib {} (VideoEnhancer.denoise lib {} f)) ∧
    (main lib w argv).2.1.writer.fps = vf.fps ∧
    (main lib w argv).2.1.writer.frameSize = ⟨vf.width, vf.height⟩ ∧
    (main lib w argv).2.2.cout =
      (List.range (fs.length / 100)).map (fun k =>
        progressLine (100 * (k + 1)) (elapsedSeconds w (w.clock 0) (w.clock (1 + k)))) ++
      [summaryLine fs.length
        (elapsedSeconds w (w.clock 0) (w.clock (1 + fs.length / 100)))] ∧
    (main lib w argv).2.2.cerr = [] := by
  have hinit := initialize_succeeds w {} {} _ _ vf hin hout
  have hc : (( VideoEnhancer.initialize w {} {} (parseArgs argv).1
      (parseArgs argv).2).2.1.setParams 10 1.2 10).cap.opened = true := by
    rw [hinit]; rfl
  have hw : (( VideoEnhancer.initialize w {} {} (parseArgs argv).1
      (parseArgs argv).2).2.1.setParams 10 1.2 10).writer.opened = true := by
    rw [hinit]; rfl
  have hp : (( VideoEnhancer.initialize w {} {} (parseArgs argv).1
      (parseArgs argv).2).2.1.setParams 10 1.2 10).cap.pending = fs.map some ++ rest := by
    rw [hinit]; exact hframes
  have hwr := process_written lib w _
    ( VideoEnhancer.initialize w {} {} (parseArgs argv).1 (parseArgs argv).2).2.2
    fs rest hc hw hp hfail
  have hco := process_cout lib w _
    ( VideoEnhancer.initialize w {} {} (parseArgs argv).1 (parseArgs argv).2).2.2
    fs rest hc hp hfail
  obtain ⟨_, p2, p3, p4, _, _, _⟩ := process_config lib w
    (( VideoEnhancer.initialize w {} {} (parseArgs argv).1
      (parseArgs argv).2).2.1.setParams 10 1.2 10)
    ( VideoEnhancer.initialize w {} {} (parseArgs argv).1 (parseArgs argv).2).2.2
  rw [main_eq, if_neg (by rw [hinit]; simp)]
  simp only
  obtain ⟨d1, d2, d3, _⟩ := destroy_writer
    (VideoEnhancer.process lib w
      (( VideoEnhancer.initialize w {} {} (parseArgs argv).1
        (parseArgs argv).2).2.1.setParams 10 1.2 10)
      ( VideoEnhancer.initialize w {} {} (parseArgs argv).1 (parseArgs argv).2).2.2).1
    (VideoEnhancer.process lib w
      (( VideoEnhancer.initialize w {} {} (parseArgs argv).1
        (parseArgs argv).2).2.1.setParams 10 1.2 10)
      ( VideoEnhancer.initialize w {} {} (parseArgs argv).1 (parseArgs argv).2).2.2).2
  refine ⟨trivial, ?_, ?_, ?_, ?_, ?_⟩
  · rw [d1, hwr, hinit]
    rfl
  · rw [d2, p3, hinit]
    rfl
  · rw [d3, p4, hinit]
    rfl
  · rw [(destroy_effect _ _).2.1, hco, hinit]
    rfl
  · rw [(destroy_effect _ _).2.2.1, process_cerr, hinit]

/-- The end-to-end scenario: the three-frame, 2x2, 30 fps example run through
`main` with no argument. -/
theorem main_end_to_end_witness :
    (main exampleLib exampleWorld ["prog"]).1 = 0 ∧
    (main exampleLib exampleWorld ["prog"]).2.1.writer.written.length = 3 ∧
    (main exampleLib exampleWorld ["prog"]).2.1.writer.fps = 30 ∧
    (main exampleLib exampleWorld ["prog"]).2.1.writer.frameSize = ⟨2, 2⟩ ∧
    (main exampleLib exampleWorld ["prog"]).2.2.cout = ["Completed 3 frames in 1 seconds"] :=
  have h := main_end_to_end exampleLib exampleWorld ["prog"] exampleVideo
    [exampleFrame 0, exampleFrame 100, exampleFrame 250] [] rfl rfl rfl
    (fun _ _ hne => List.noConfusion hne)
  ⟨h.1, by rw [h.2.1]; rfl, h.2.2.1, h.2.2.2.1, by rw [h.2.2.2.2.1]; decide⟩

/-! ## Idempotence of `enhanceContrast` -/

end VideoEnchancement
